import Mathlib

/-!
Verification of the recording/playback engine of `simplemacro.py`.

The Python source is shallowly embedded: real-valued times and delays are
modelled as rationals (`ℚ`), the mutable GUI object becomes an explicit
`AppState` record, the background playback thread becomes a pure function
over an oracle `f : Nat → Bool` giving the value of the shared
`stop_playback` flag at each successive read, and JSON documents are
modelled by the inductive `JVal`.
-/

/-! ### Configuration constants (lines 18-24 of the source) -/

def MIN_SLEEP_CHUNK : ℚ := 1 / 50

def SMALL_WAIT_THRESHOLD : ℚ := 1 / 5

def MACRO_FILE_VERSION : Int := 3

/-! ### Data model: `MacroEvent` (source lines 57-70) -/

structure MacroEvent where
  type : String
  delay_before : ℚ
  x : Option Int := none
  y : Option Int := none
  key : Option String := none
deriving DecidableEq, Repr

/-! ### Python numeric-string conversion helpers.

`int(s)` and `float(s)` are modelled for plain decimal forms
(optional sign, digits, optional fractional part).  Pythonic extras such as
surrounding whitespace, underscores, exponents and `inf`/`nan` are not
modelled; no claim depends on them. -/

def digitsVal (cs : List Char) : Option Nat :=
  if cs = [] then none
  else if cs.all (fun c => c.isDigit) then
    some (cs.foldl (fun n c => 10 * n + (c.toNat - 48)) 0)
  else none

def pyInt (s : String) : Option Int :=
  match s.toList with
  | '-' :: rest => (digitsVal rest).map (fun n => -(n : Int))
  | '+' :: rest => (digitsVal rest).map (fun n => (n : Int))
  | cs => (digitsVal cs).map (fun n => (n : Int))

def digitsValD (cs : List Char) : Nat :=
  cs.foldl (fun n c => 10 * n + (c.toNat - 48)) 0

/-- Unsigned decimal: digits, optionally followed by a dot and digits;
at least one digit overall (so `float(".")` fails, `float("1.")` and
`float(".5")` succeed as in Python). -/
def pyFloatCore (cs : List Char) : Option ℚ :=
  let ip := cs.takeWhile (fun c => c.isDigit)
  let rest := cs.dropWhile (fun c => c.isDigit)
  match rest with
  | [] => if ip = [] then none else some ((digitsValD ip : ℚ))
  | '.' :: fp =>
    if fp.all (fun c => c.isDigit) ∧ (ip ≠ [] ∨ fp ≠ []) then
      some ((digitsValD ip : ℚ) + (digitsValD fp : ℚ) / (10 : ℚ) ^ fp.length)
    else none
  | _ => none

def pyFloat (s : String) : Option ℚ :=
  match s.toList with
  | '-' :: rest => (pyFloatCore rest).map (fun q => -q)
  | '+' :: rest => pyFloatCore rest
  | cs => pyFloatCore cs

/-- Python `int(q)` on a float truncates toward zero. -/
def pyTrunc (q : ℚ) : Int :=
  if 0 ≤ q then ⌊q⌋ else ⌈q⌉

/-! ### JSON documents.

`json.load` yields dicts, lists, strings, ints, floats, bools and `None`;
`jint`/`jfloat` keep the Python int/float distinction. -/

inductive JVal where
  | jnull : JVal
  | jbool : Bool → JVal
  | jint : Int → JVal
  | jfloat : ℚ → JVal
  | jstr : String → JVal
  | jarr : List JVal → JVal
  | jobj : List (String × JVal) → JVal

/-- Dict lookup (`d.get(k)` / `d[k]`): first binding wins. -/
def lookupField : List (String × JVal) → String → Option JVal
  | [], _ => none
  | (k, v) :: rest, key => if k = key then some v else lookupField rest key

/-- Python `str(v)`.  Faithful for strings, ints, bools and `None`; for
floats and containers the source never relies on the exact text, so a
stand-in rendering is used. -/
def pyStr : JVal → String
  | .jstr s => s
  | .jint n => toString n
  | .jbool b => if b then "True" else "False"
  | .jnull => "None"
  | .jfloat q => toString q
  | .jarr _ => "<list>"
  | .jobj _ => "<dict>"

/-- Python `float(v)` on a JSON value: numbers and bools convert, numeric
strings parse, everything else raises (`TypeError`/`ValueError`). -/
def pyFloatVal : JVal → Except String ℚ
  | .jint n => .ok (n : ℚ)
  | .jfloat q => .ok q
  | .jbool b => .ok (if b then 1 else 0)
  | .jstr s =>
    match pyFloat s with
    | some q => .ok q
    | none => .error "could not convert string to float"
  | _ => .error "float() argument must be a string or a real number"

/-- Python `int(v)` on a JSON value: ints pass through, floats truncate,
bools convert, integer strings parse, everything else raises. -/
def pyIntVal : JVal → Except String Int
  | .jint n => .ok n
  | .jfloat q => .ok (pyTrunc q)
  | .jbool b => .ok (if b then 1 else 0)
  | .jstr s =>
    match pyInt s with
    | some n => .ok n
    | none => .error "invalid literal for int()"
  | _ => .error "int() argument must be a string or a real number"

def optIntToJson : Option Int → JVal
  | some n => .jint n
  | none => .jnull

def optStrToJson : Option String → JVal
  | some s => .jstr s
  | none => .jnull

/-! ### Serialization (source `save_macro`, lines 753-770).

The GUI shell (empty-timeline guard, file dialog, actual file write) is
outside the serializer; the embedded function builds the JSON document the
source dumps. -/

def eventToJson (ev : MacroEvent) : JVal :=
  .jobj ([("type", JVal.jstr ev.type), ("delay_before", JVal.jfloat ev.delay_before)]
    ++ (if ev.type = "mouse_click" then
          [("x", optIntToJson ev.x), ("y", optIntToJson ev.y)] else [])
    ++ (if ev.type = "key_down" ∨ ev.type = "key_up" then
          [("key", optStrToJson ev.key)] else []))

def save_macro_doc (events : List MacroEvent) : JVal :=
  .jobj [("version", JVal.jint MACRO_FILE_VERSION),
         ("events", JVal.jarr (events.map eventToJson))]

/-! ### Deserialization (source `load_macro`, lines 790-836). -/

/-- Source line `delay = float(item.get("delay_before", 0.0))`. -/
def parseDelay (fs : List (String × JVal)) : Except String ℚ :=
  match lookupField fs "delay_before" with
  | none => .ok 0
  | some v => pyFloatVal v

/-- Source lines `x = int(item["x"]); y = int(item["y"])` and the mouse event built from
them; a missing key raises `KeyError`. -/
def parseMouse (fs : List (String × JVal)) (delay : ℚ) :
    Except String (Option MacroEvent) :=
  match lookupField fs "x" with
  | none => .error "KeyError: x"
  | some xv =>
    match pyIntVal xv with
    | .error e => .error e
    | .ok xi =>
      match lookupField fs "y" with
      | none => .error "KeyError: y"
      | some yv =>
        match pyIntVal yv with
        | .error e => .error e
        | .ok yi =>
          .ok (some { type := "mouse_click", delay_before := delay,
                      x := some xi, y := some yi, key := none })

/-- Source line `key_str = str(item["key"])` and the key event built from it. -/
def parseKey (fs : List (String × JVal)) (t : String) (delay : ℚ) :
    Except String (Option MacroEvent) :=
  match lookupField fs "key" with
  | none => .error "KeyError: key"
  | some kv =>
    .ok (some { type := t, delay_before := delay,
                x := none, y := none, key := some (pyStr kv) })

/-- Dispatch on the `type` value of the item (`item.get("type", "mouse_click")`):
the two known kinds parse their fields, anything else is skipped. -/
def parseTyped (fs : List (String × JVal)) (typeVal : JVal) (delay : ℚ) :
    Except String (Option MacroEvent) :=
  match typeVal with
  | .jstr t =>
    if t = "mouse_click" then parseMouse fs delay
    else if t = "key_down" ∨ t = "key_up" then parseKey fs t delay
    else .ok none
  | _ => .ok none

/-- One item of the `events` array.  `.error` aborts the whole load
(the source converts any inner exception to `ValueError` and re-raises);
`.ok none` means the item is skipped (unknown `type`).  Note the source
converts `delay_before` (and clamps a negative value to `0`) before
dispatching on `type`. -/
def parseEvent (item : JVal) : Except String (Option MacroEvent) :=
  match item with
  | .jobj fs =>
    match parseDelay fs with
    | .error e => .error e
    | .ok d0 =>
      parseTyped fs ((lookupField fs "type").getD (.jstr "mouse_click"))
        (if d0 < 0 then (0 : ℚ) else d0)
  | _ => .error "AttributeError: item has no attribute get"

def loadEvents : List JVal → Nat → Except String (List MacroEvent)
  | [], _ => .ok []
  | item :: rest, idx =>
    match parseEvent item with
    | .error e => .error ("Invalid event at index " ++ toString idx ++ ": " ++ e)
    | .ok none => loadEvents rest (idx + 1)
    | .ok (some ev) => (loadEvents rest (idx + 1)).map (fun l => ev :: l)

def load_macro_doc (data : JVal) : Except String (List MacroEvent) :=
  match data with
  | .jobj fs =>
    match lookupField fs "events" with
    | some (.jarr items) => loadEvents items 0
    | _ => .error "Invalid macro file format (missing events list)."
  | _ => .error "AttributeError: data has no attribute get"

/-- The event an items-array entry contributes, if any. -/
def parsedEvent (item : JVal) : Option MacroEvent :=
  match parseEvent item with
  | .ok o => o
  | .error _ => none

/-! ### Key encoding/decoding (source `encode_key`/`decode_key`, lines 77-114).

The key objects of `pynput`: `keyboard.Key` is an enum of named special keys;
`keyboard.KeyCode` carries an optional character (stored as its string) and
an optional virtual-key code. -/

inductive PynputKey where
  | special : String → PynputKey
  | keyCode : Option String → Option Int → PynputKey
deriving DecidableEq, Repr

/-- The member names of `pynput.keyboard.Key` (`getattr(keyboard.Key, name)`
succeeds exactly for these). -/
def pynputKeyNames : List String :=
  ["alt", "alt_l", "alt_r", "alt_gr", "backspace", "caps_lock",
   "cmd", "cmd_l", "cmd_r", "ctrl", "ctrl_l", "ctrl_r", "delete",
   "down", "end", "enter", "esc", "f1", "f2", "f3", "f4", "f5", "f6",
   "f7", "f8", "f9", "f10", "f11", "f12", "f13", "f14", "f15", "f16",
   "f17", "f18", "f19", "f20", "home", "insert", "left", "media_next",
   "media_play_pause", "media_previous", "media_volume_down",
   "media_volume_mute", "media_volume_up", "menu", "num_lock",
   "page_down", "page_up", "pause", "print_screen", "right",
   "scroll_lock", "shift", "shift_l", "shift_r", "space", "tab", "up"]

def encode_key (k : PynputKey) : String :=
  match k with
  | .special name => "Key." ++ name
  | .keyCode (some c) _ => c
  | .keyCode none (some vk) => "KeyCode.vk." ++ toString vk
  | .keyCode none none => "<KeyCode>"

def decode_key (s : String) : Option PynputKey :=
  if s.startsWith "Key." then
    let name := s.drop 4
    if name ∈ pynputKeyNames then some (.special name) else none
  else if s.startsWith "KeyCode.vk." then
    match (s.splitOn ".").getLast? with
    | some last =>
      match pyInt last with
      | some vk => some (.keyCode none (some vk))
      | none => none
    | none => none
  else if s.length = 1 then some (.keyCode (some s) none)
  else none

/-! ### Application state and editing operations.

`AppState` gathers the mutable fields of `MouseKeyboardMacroGUI` the engine
operates on; every GUI operation becomes a function `AppState → AppState`
(paired with the message it would surface). -/

structure AppState where
  is_recording : Bool
  is_playing : Bool
  last_event_time : Option ℚ
  events : List MacroEvent
deriving DecidableEq, Repr

/-- The user-visible outcome of an editing / loading operation. -/
inductive EditOutcome where
  | okDone : EditOutcome
  | busy : EditOutcome
  | noSelection : EditOutcome
  | invalidDelay : EditOutcome
  | ignored : EditOutcome
deriving DecidableEq, Repr

/-- In-place update of the element at one index (`self.events[idx] = ...`). -/
def modifyAt : List MacroEvent → Nat → (MacroEvent → MacroEvent) → List MacroEvent
  | [], _, _ => []
  | a :: t, 0, f => f a :: t
  | a :: t, Nat.succ n, f => a :: modifyAt t n f

/-- Source loop `del self.events[index]` for each index, in the order given
(the source iterates `reversed(selection)`), revalidating against the
current length each time. -/
def deleteIndices (events : List MacroEvent) (idxs : List Nat) : List MacroEvent :=
  idxs.foldl (fun evs i => if i < evs.length then evs.eraseIdx i else evs) events

/-- Source `clear_events` (lines 607-615). -/
def clear_events (s : AppState) : AppState × EditOutcome :=
  if s.is_recording = true ∨ s.is_playing = true then (s, .busy)
  else ({ s with events := [] }, .okDone)

/-- Source `delete_selected` (lines 617-632). -/
def delete_selected (s : AppState) (selection : List Nat) : AppState × EditOutcome :=
  if s.is_recording = true ∨ s.is_playing = true then (s, .busy)
  else if selection = [] then (s, .noSelection)
  else ({ s with events := deleteIndices s.events selection.reverse }, .okDone)

/-- Source line `self.events[index].delay_before = new_delay`. -/
def setDelayAt (evs : List MacroEvent) (idx : Nat) (d : ℚ) : List MacroEvent :=
  modifyAt evs idx (fun ev => { ev with delay_before := d })

/-- Source `update_selected_delay` (lines 634-666). -/
def update_selected_delay (s : AppState) (selection : List Nat) (delayStr : String) :
    AppState × EditOutcome :=
  if s.is_recording = true ∨ s.is_playing = true then (s, .busy)
  else if selection = [] then (s, .noSelection)
  else if selection.headD 0 < s.events.length then
    if delayStr.trim = "" then (s, .invalidDelay)
    else
      match pyFloat delayStr.trim with
      | none => (s, .invalidDelay)
      | some d =>
        if d < 0 then (s, .invalidDelay)
        else ({ s with events := setDelayAt s.events (selection.headD 0) d }, .okDone)
  else (s, .ignored)

/-- Source lines `new_val = self.events[idx].delay_before + delta; if new_val < 0:
new_val = 0.0`. -/
def addClamp (delta : ℚ) (ev : MacroEvent) : MacroEvent :=
  { ev with delay_before :=
      if ev.delay_before + delta < 0 then 0 else ev.delay_before + delta }

/-- The loop body of `add_delay_to_selected`: skip out-of-range indices,
otherwise add the delta and clamp a negative result to `0`. -/
def addDelayStep (delta : ℚ) (evs : List MacroEvent) (idx : Nat) : List MacroEvent :=
  if idx < evs.length then modifyAt evs idx (addClamp delta)
  else evs

/-- Source `add_delay_to_selected` (lines 668-703): per selected index the
delta is added and a negative result clamped to `0`. -/
def add_delay_to_selected (s : AppState) (selection : List Nat) (addStr : String) :
    AppState × EditOutcome :=
  if s.is_recording = true ∨ s.is_playing = true then (s, .busy)
  else if selection = [] then (s, .noSelection)
  else if addStr.trim = "" then (s, .invalidDelay)
  else
    match pyFloat addStr.trim with
    | none => (s, .invalidDelay)
    | some delta =>
      ({ s with events := selection.foldl (addDelayStep delta) s.events },
       .okDone)

/-- Source `stop_recording` (lines 377-393): listener shutdown and widget
refreshes are outside the engine; the state effect is recorded here. -/
def stop_recording (s : AppState) : AppState :=
  if s.is_recording = false then s
  else { s with is_recording := false, events := s.events.dropLast }

/-- Source `_get_delay` (lines 448-456); `now` is the `time.time()` sample. -/
def _get_delay (now : ℚ) (s : AppState) : ℚ × AppState :=
  match s.last_event_time with
  | none => (0, { s with last_event_time := some now })
  | some t => (now - t, { s with last_event_time := some now })

/-- Source `on_mouse_click` (lines 458-479); `px, py` stand for the
`pyautogui.position()` sample and `left`, `pressed` for the
button arguments. -/
def on_mouse_click (s : AppState) (now : ℚ) (px py : Int) (left pressed : Bool) :
    AppState :=
  if s.is_recording = false then s
  else if left = false ∨ pressed = false then s
  else
    let d := _get_delay now s
    { d.2 with events := d.2.events ++
        [{ type := "mouse_click", delay_before := d.1,
           x := some px, y := some py, key := none }] }

/-- Source `_record_key_event` (lines 481-500). -/
def record_key_event (s : AppState) (now : ℚ) (ev_type : String) (k : PynputKey) :
    AppState :=
  if s.is_recording = false then s
  else
    let d := _get_delay now s
    { d.2 with events := d.2.events ++
        [{ type := ev_type, delay_before := d.1,
           x := none, y := none, key := some (encode_key k) }] }

/-- Source `load_macro` at the GUI level (lines 778-841): busy gate, then the
timeline is replaced only when the whole parse succeeded. -/
def loadIntoApp (s : AppState) (data : JVal) : AppState :=
  if s.is_recording = true ∨ s.is_playing = true then s
  else
    match load_macro_doc data with
    | .ok evs => { s with events := evs }
    | .error _ => s

/-! ### Playback (source `_play_macro_thread`, lines 529-593).

The shared `stop_playback` flag is modelled by an oracle `f : Nat → Bool`
giving the value returned by each successive read of the flag; every model
function threads the count of reads performed so far. -/

/-- The run with no cancel request: every read of `stop_playback` is false. -/
def cancelNever : Nat → Bool := fun _ => false

/-- Source line `total_wait = ev.delay_before / speed if ev.delay_before > 0 else 0.0`. -/
def totalWait (delay speed : ℚ) : ℚ :=
  if 0 < delay then delay / speed else 0

/-- Iteration bound for the chunked-sleep `while` loop: the loop runs at
most `⌈remaining / MIN_SLEEP_CHUNK⌉` times. -/
def chunkFuel (w : ℚ) : Nat :=
  (⌈w / MIN_SLEEP_CHUNK⌉).toNat

/-- The `while remaining > 0` loop: returns (cancelled, chunk durations
slept, reads performed).  The fuel argument only bounds iteration; with
`chunkFuel` supplied it never runs out. -/
def chunkLoop (f : Nat → Bool) : Nat → ℚ → Nat → Bool × List ℚ × Nat
  | 0, _, r => (false, [], r)
  | Nat.succ fuel, remaining, r =>
    if 0 < remaining then
      if f r = true then (true, [], r + 1)
      else
        let chunk := if MIN_SLEEP_CHUNK < remaining then MIN_SLEEP_CHUNK else remaining
        let res := chunkLoop f fuel (remaining - chunk) (r + 1)
        (res.1, chunk :: res.2.1, res.2.2)
    else (false, [], r)

/-- The per-event wait (lines 559-573): no wait for `total_wait ≤ 0`, one
uninterruptible sleep at or below the threshold, the chunk loop above it. -/
def waitPolicy (f : Nat → Bool) (w : ℚ) (r : Nat) : Bool × List ℚ × Nat :=
  if 0 < w then
    if w ≤ SMALL_WAIT_THRESHOLD then (false, [w], r)
    else chunkLoop f (chunkFuel w) w r
  else (false, [], r)

/-- One inner pass (`for ev in self.events`): returns (cancelled, events
whose action block was executed, reads performed). -/
def playEvents (f : Nat → Bool) (speed : ℚ) : List MacroEvent → Nat → Bool × List MacroEvent × Nat
  | [], r => (false, [], r)
  | ev :: rest, r =>
    if f r = true then (true, [], r + 1)
    else
      let w := waitPolicy f (totalWait ev.delay_before speed) (r + 1)
      if w.1 = true then (true, [], w.2.2)
      else if f w.2.2 = true then (true, [], w.2.2 + 1)
      else
        let res := playEvents f speed rest (w.2.2 + 1)
        (res.1, ev :: res.2.1, res.2.2)

/-- The outer `for _ in range(loops)` with its end-of-pass
`if cancel or self.stop_playback: break`. -/
def playLoops (f : Nat → Bool) (speed : ℚ) (events : List MacroEvent) : Nat → Nat → Bool × List MacroEvent × Nat
  | 0, r => (false, [], r)
  | Nat.succ n, r =>
    let inner := playEvents f speed events r
    if inner.1 = true then (true, inner.2.1, inner.2.2)
    else if f inner.2.2 = true then (true, inner.2.1, inner.2.2 + 1)
    else
      let res := playLoops f speed events n (inner.2.2 + 1)
      (res.1, inner.2.1 ++ res.2.1, res.2.2)

/-- Source lines `speed = float(self.speed_var.get()); if speed <= 0: speed = 1.0`,
with any exception also giving `1.0` (lines 531-536). -/
def sanitizeSpeed (s : String) : ℚ :=
  match pyFloat s with
  | some q => if q ≤ 0 then 1 else q
  | none => 1

/-- Source lines `loops = int(self.loop_var.get()); if loops <= 0: loops = 1`,
with any exception also giving `1` (lines 538-543). -/
def sanitizeLoops (s : String) : Nat :=
  match pyInt s with
  | some n => if n ≤ 0 then 1 else n.toNat
  | none => 1

/-- The whole `_play_macro_thread`: parameters are read and sanitized once
up front, then the loop runs on those fixed values. -/
def play_macro_thread (f : Nat → Bool) (speedStr loopStr : String)
    (events : List MacroEvent) : Bool × List MacroEvent × Nat :=
  let speed := sanitizeSpeed speedStr
  let loops := sanitizeLoops loopStr
  if events.isEmpty then (false, [], 0)
  else playLoops f speed events loops 0

/-! ### Helper lemmas about the chunked wait -/

lemma chunkLoop_zero_rem (f : Nat → Bool) (fuel r : Nat) :
    chunkLoop f fuel 0 r = (false, [], r) := by
  cases fuel <;> simp [chunkLoop]

lemma chunkFuel_pos {w : ℚ} (hw : 0 < w) : 1 ≤ chunkFuel w := by
  have hMIN : (0 : ℚ) < MIN_SLEEP_CHUNK := by norm_num [MIN_SLEEP_CHUNK]
  have h : 0 < ⌈w / MIN_SLEEP_CHUNK⌉ := Int.ceil_pos.mpr (div_pos hw hMIN)
  unfold chunkFuel
  omega

lemma chunkFuel_sub {w : ℚ} (hc : MIN_SLEEP_CHUNK < w) :
    chunkFuel (w - MIN_SLEEP_CHUNK) = chunkFuel w - 1 := by
  have hMIN : (0 : ℚ) < MIN_SLEEP_CHUNK := by norm_num [MIN_SLEEP_CHUNK]
  unfold chunkFuel
  have h1 : (w - MIN_SLEEP_CHUNK) / MIN_SLEEP_CHUNK = w / MIN_SLEEP_CHUNK - 1 := by
    rw [sub_div, div_self (ne_of_gt hMIN)]
  have h2 : (1 : ℤ) < ⌈w / MIN_SLEEP_CHUNK⌉ := by
    rw [Int.lt_ceil]
    push_cast
    rw [lt_div_iff₀ hMIN]
    linarith
  have h3 : ⌈w / MIN_SLEEP_CHUNK - 1⌉ = ⌈w / MIN_SLEEP_CHUNK⌉ - 1 := by
    exact_mod_cast Int.ceil_sub_int (w / MIN_SLEEP_CHUNK) 1
  rw [h1, h3]
  omega

/-- With no cancel request and enough fuel, the chunk loop sleeps some
number of full `MIN_SLEEP_CHUNK` chunks followed by one final chunk in
`(0, MIN_SLEEP_CHUNK]`, the chunks summing exactly to the requested wait,
with one flag read per chunk. -/
lemma chunkLoop_run : ∀ (fuel : Nat) (w : ℚ) (r : Nat), 0 < w → chunkFuel w ≤ fuel →
    ∃ n rem, chunkLoop cancelNever fuel w r =
        (false, List.replicate n MIN_SLEEP_CHUNK ++ [rem], r + (n + 1)) ∧
      0 < rem ∧ rem ≤ MIN_SLEEP_CHUNK ∧ (n : ℚ) * MIN_SLEEP_CHUNK + rem = w := by
  intro fuel
  induction fuel with
  | zero =>
    intro w r hw hfuel
    exact absurd hfuel (by have := chunkFuel_pos hw; omega)
  | succ fuel ih =>
    intro w r hw hfuel
    by_cases hc : MIN_SLEEP_CHUNK < w
    · have hw' : 0 < w - MIN_SLEEP_CHUNK := by linarith
      have hfe := chunkFuel_sub hc
      have hf2 : chunkFuel (w - MIN_SLEEP_CHUNK) ≤ fuel := by
        have := chunkFuel_pos hw
        omega
      obtain ⟨n, rem, heq, h1, h2, h3⟩ := ih (w - MIN_SLEEP_CHUNK) (r + 1) hw' hf2
      refine ⟨n + 1, rem, ?_, h1, h2, ?_⟩
      · simp only [chunkLoop, if_pos hw, cancelNever, Bool.false_eq_true, if_false,
          if_pos hc, heq]
        refine Prod.ext rfl (Prod.ext ?_ ?_)
        · simp [List.replicate_succ]
        · simp
          omega
      · push_cast
        linarith
    · refine ⟨0, w, ?_, hw, le_of_not_lt hc, by simp⟩
      simp only [chunkLoop, if_pos hw, cancelNever, Bool.false_eq_true, if_false,
        if_neg hc, sub_self, chunkLoop_zero_rem]
      simp

/-! ### Helper lemmas about the playback loops -/

/-- One inner pass executes the actions of a prefix of the timeline, the
whole timeline when it was not cancelled. -/
lemma playEvents_shape (f : Nat → Bool) (speed : ℚ) :
    ∀ (events : List MacroEvent) (r : Nat),
      ∃ c m r', playEvents f speed events r = (c, events.take m, r') ∧
        m ≤ events.length ∧ (c = false → m = events.length) := by
  intro events
  induction events with
  | nil =>
    intro r
    exact ⟨false, 0, r, rfl, by simp, fun _ => rfl⟩
  | cons ev rest ih =>
    intro r
    by_cases h1 : f r = true
    · exact ⟨true, 0, r + 1, by simp [playEvents, h1], Nat.zero_le _, by simp⟩
    · by_cases h2 : (waitPolicy f (totalWait ev.delay_before speed) (r + 1)).1 = true
      · exact ⟨true, 0, (waitPolicy f (totalWait ev.delay_before speed) (r + 1)).2.2,
          by simp [playEvents, h1, h2], Nat.zero_le _, by simp⟩
      · by_cases h3 : f (waitPolicy f (totalWait ev.delay_before speed) (r + 1)).2.2 = true
        · exact ⟨true, 0, (waitPolicy f (totalWait ev.delay_before speed) (r + 1)).2.2 + 1,
            by simp [playEvents, h1, h2, h3], Nat.zero_le _, by simp⟩
        · obtain ⟨c, m, r', heq, hm, hcf⟩ :=
            ih ((waitPolicy f (totalWait ev.delay_before speed) (r + 1)).2.2 + 1)
          refine ⟨c, m + 1, r', ?_, by simpa using Nat.succ_le_succ hm,
            fun h => by simp [hcf h]⟩
          simp [playEvents, h1, h2, h3, heq]

/-- The multi-loop run executes some number of complete passes followed by
a prefix of one more pass; absent cancellation it is exactly `loops`
complete passes. -/
lemma playLoops_shape (f : Nat → Bool) (speed : ℚ) (events : List MacroEvent) :
    ∀ (loops r : Nat),
      ∃ c k m r', playLoops f speed events loops r =
          (c, List.flatten (List.replicate k events) ++ events.take m, r') ∧
        k ≤ loops ∧ m ≤ events.length ∧ (c = false → k = loops ∧ m = 0) := by
  intro loops
  induction loops with
  | zero =>
    intro r
    exact ⟨false, 0, 0, r, by simp [playLoops], le_refl 0, by simp, fun _ => ⟨rfl, rfl⟩⟩
  | succ n ih =>
    intro r
    obtain ⟨c1, m1, r1, heq1, hm1, hcf1⟩ := playEvents_shape f speed events r
    by_cases hC : c1 = true
    · refine ⟨true, 0, m1, r1, ?_, Nat.zero_le _, hm1, by simp⟩
      simp [playLoops, heq1, hC]
    · have hc1 : c1 = false := by simpa using hC
      have hm1' : m1 = events.length := hcf1 hc1
      by_cases hD : f r1 = true
      · refine ⟨true, 1, 0, r1 + 1, ?_, by omega, by simp, by simp⟩
        simp [playLoops, heq1, hc1, hD, hm1']
      · obtain ⟨c2, k2, m2, r2, heq2, hk2, hm2, hcf2⟩ := ih (r1 + 1)
        refine ⟨c2, k2 + 1, m2, r2, ?_, by omega, hm2,
          fun h => ⟨by have := (hcf2 h).1; omega, (hcf2 h).2⟩⟩
        simp [playLoops, heq1, hc1, hD, heq2, hm1', List.replicate_succ,
          List.append_assoc]

/-! ### Claim theorems -/

/-- C1: per event the engine computes `scaled_wait = delay_before / speed`
(skipping the wait when `delay_before ≤ 0`); a wait at or below
`SMALL_WAIT_THRESHOLD` (0.2 s) is slept whole in a single step, and a wait
above it is slept in `MIN_SLEEP_CHUNK` (0.02 s) chunks with the final chunk
truncated to the remainder, one cancellation-flag read before every chunk,
the chunks summing exactly to `scaled_wait` absent cancellation. -/
theorem c1_wait_policy (delay speed : ℚ) (r : Nat) :
    (0 < delay → totalWait delay speed = delay / speed) ∧
    (delay ≤ 0 → waitPolicy cancelNever (totalWait delay speed) r = (false, [], r)) ∧
    (0 < totalWait delay speed → totalWait delay speed ≤ SMALL_WAIT_THRESHOLD →
      waitPolicy cancelNever (totalWait delay speed) r =
        (false, [totalWait delay speed], r)) ∧
    (SMALL_WAIT_THRESHOLD < totalWait delay speed →
      ∃ n rem,
        waitPolicy cancelNever (totalWait delay speed) r =
          (false, List.replicate n MIN_SLEEP_CHUNK ++ [rem], r + (n + 1)) ∧
        0 < rem ∧ rem ≤ MIN_SLEEP_CHUNK ∧
        (List.replicate n MIN_SLEEP_CHUNK ++ [rem]).sum = totalWait delay speed) := by
  refine ⟨fun h => by simp [totalWait, h], fun h => ?_, fun h1 h2 => ?_, fun h => ?_⟩
  · have : totalWait delay speed = 0 := by
      simp [totalWait, not_lt.mpr h]
    rw [this]
    simp [waitPolicy]
  · simp [waitPolicy, h1, h2]
  · have h0 : (0 : ℚ) < totalWait delay speed := by
      have : (0 : ℚ) < SMALL_WAIT_THRESHOLD := by norm_num [SMALL_WAIT_THRESHOLD]
      linarith
    obtain ⟨n, rem, heq, hr1, hr2, hsum⟩ :=
      chunkLoop_run (chunkFuel (totalWait delay speed)) (totalWait delay speed) r h0
        (le_refl _)
    refine ⟨n, rem, ?_, hr1, hr2, ?_⟩
    · rw [waitPolicy, if_pos h0, if_neg (not_le.mpr h)]
      exact heq
    · simp [List.sum_replicate, nsmul_eq_mul]
      linarith

/-- Witness for C1: a 0.5 s delay at speed 1 exceeds the threshold and its
chunks sum exactly to the scaled wait. -/
theorem c1_wait_policy_witness :
    SMALL_WAIT_THRESHOLD < totalWait (1 / 2) 1 ∧
    (waitPolicy cancelNever (totalWait (1 / 2) 1) 0).2.1.sum = totalWait (1 / 2) 1 := by
  have hlt : SMALL_WAIT_THRESHOLD < totalWait (1 / 2) 1 := by
    norm_num [totalWait, SMALL_WAIT_THRESHOLD]
  obtain ⟨n, rem, heq, _, _, hsum⟩ := (c1_wait_policy (1 / 2) 1 0).2.2.2 hlt
  exact ⟨hlt, by rw [heq]; exact hsum⟩

/-- Used only to witness C2: an oracle whose every read reports the
cancellation flag set. -/
def cancelAlways : Nat → Bool := fun _ => true

/-- C2: the flag is re-checked at the start of each event, after every
wait, and (inside a long wait) before every chunk; whenever a read returns
true the run aborts there — what executes is always some number of complete
passes followed by a prefix of the next pass, and only an uncancelled run
executes all `loops` passes. -/
theorem c2_cancellation (f : Nat → Bool) (speed : ℚ) :
    (∀ (ev : MacroEvent) (rest : List MacroEvent) (r : Nat), f r = true →
        playEvents f speed (ev :: rest) r = (true, [], r + 1)) ∧
    (∀ (ev : MacroEvent) (rest : List MacroEvent) (r : Nat), f r = false →
        (waitPolicy f (totalWait ev.delay_before speed) (r + 1)).1 = false →
        f ((waitPolicy f (totalWait ev.delay_before speed) (r + 1)).2.2) = true →
        playEvents f speed (ev :: rest) r =
          (true, [], (waitPolicy f (totalWait ev.delay_before speed) (r + 1)).2.2 + 1)) ∧
    (∀ (events : List MacroEvent) (r : Nat),
      ∃ c m r', playEvents f speed events r = (c, events.take m, r') ∧
        m ≤ events.length ∧ (c = false → m = events.length)) ∧
    (∀ (events : List MacroEvent) (loops r : Nat),
      ∃ c k m r', playLoops f speed events loops r =
          (c, List.flatten (List.replicate k events) ++ events.take m, r') ∧
        k ≤ loops ∧ m ≤ events.length ∧ (c = false → k = loops ∧ m = 0)) := by
  refine ⟨fun ev rest r h => by simp [playEvents, h],
    fun ev rest r h1 h2 h3 => by simp [playEvents, h1, h2, h3],
    playEvents_shape f speed, playLoops_shape f speed⟩

/-- Witness for C2: with the flag set from the start, the action of the
waiting event is never executed. -/
theorem c2_cancellation_witness :
    playEvents cancelAlways 1
      [{ type := "mouse_click", delay_before := 1, x := some 0, y := some 0,
         key := none }] 0 = (true, [], 1) :=
  (c2_cancellation cancelAlways 1).1 _ [] 0 rfl

/-- C3: `stop_recording` while recording drops exactly the trailing event,
leaving all earlier events unchanged, and removes nothing from an empty
timeline. -/
theorem c3_stop_recording (s : AppState) (h : s.is_recording = true) :
    (∀ (l : List MacroEvent) (e : MacroEvent), s.events = l ++ [e] →
        (stop_recording s).events = l) ∧
    (s.events = [] → (stop_recording s).events = []) ∧
    (s.events ≠ [] → (stop_recording s).events.length + 1 = s.events.length) ∧
    (stop_recording s).is_recording = false := by
  have hs : stop_recording s =
      { s with is_recording := false, events := s.events.dropLast } := by
    simp [stop_recording, h]
  refine ⟨fun l e hle => ?_, fun h0 => ?_, fun hne => ?_, by rw [hs]⟩
  · rw [hs]
    simp [hle]
  · rw [hs]
    simp [h0]
  · rw [hs]
    simp only [List.length_dropLast]
    have : 0 < s.events.length := List.length_pos.mpr hne
    omega

/-- Witness for C3: stopping a two-event recording keeps exactly the first
event. -/
theorem c3_stop_recording_witness :
    (stop_recording
      { is_recording := true, is_playing := false, last_event_time := none,
        events := [{ type := "key_down", delay_before := 0, key := some "a" },
                   { type := "key_up", delay_before := 1, key := some "a" }] }).events =
      [{ type := "key_down", delay_before := 0, key := some "a" }] :=
  (c3_stop_recording _ rfl).1 _ _ rfl

/-! ### Round-trip (C4) -/

/-- The keys singled out by the round-trip property: a printable character
(a one-character string) or a named special key (`"Key.<name>"`). -/
def keyEncodable (s : String) : Prop :=
  s.length = 1 ∨ ∃ name ∈ pynputKeyNames, s = "Key." ++ name

/-- The shapes `MacroEvent`s actually take in the program: a mouse click
with coordinates and no key, or a key event with a key and no coordinates,
with a non-negative delay; for C4 the key is restricted as the claim
states. -/
def eventWF (ev : MacroEvent) : Prop :=
  0 ≤ ev.delay_before ∧
  ((ev.type = "mouse_click" ∧ (∃ a, ev.x = some a) ∧ (∃ b, ev.y = some b) ∧
      ev.key = none) ∨
   ((ev.type = "key_down" ∨ ev.type = "key_up") ∧ ev.x = none ∧ ev.y = none ∧
      ∃ k, ev.key = some k ∧ keyEncodable k))

lemma parse_of_save (ev : MacroEvent) (h : eventWF ev) :
    parseEvent (eventToJson ev) = .ok (some ev) := by
  obtain ⟨t, d, x, y, k⟩ := ev
  obtain ⟨hd, hcase⟩ := h
  simp only at hd
  rcases hcase with ⟨ht, ⟨a, hx⟩, ⟨b, hy⟩, hk⟩ | ⟨ht, hx, hy, ⟨ks, hk, _⟩⟩
  · simp only at ht hx hy hk
    subst ht hx hy hk
    simp [eventToJson, parseEvent, parseTyped, parseDelay, parseMouse, lookupField,
      pyFloatVal, pyIntVal, optIntToJson, not_lt.mpr hd]
  · simp only at hx hy hk
    subst hx hy hk
    rcases ht with ht | ht <;> simp only at ht <;> subst ht <;>
      simp [eventToJson, parseEvent, parseTyped, parseDelay, parseKey, lookupField,
        pyFloatVal, pyStr, optStrToJson, not_lt.mpr hd]

lemma load_of_save_list :
    ∀ (events : List MacroEvent), (∀ ev ∈ events, eventWF ev) →
      ∀ idx, loadEvents (events.map eventToJson) idx = .ok events := by
  intro events
  induction events with
  | nil => intro _ _; rfl
  | cons ev rest ih =>
    intro h idx
    have hev := h ev (List.mem_cons_self ev rest)
    have hrest : ∀ e ∈ rest, eventWF e := fun e he => h e (List.mem_cons_of_mem ev he)
    simp [loadEvents, parse_of_save ev hev, ih hrest (idx + 1), Except.map]

/-- C4: serializing a timeline of mouse-click events and key events whose
key is a printable character or a named special key, then deserializing the
resulting JSON document, yields the original sequence of events. -/
theorem c4_round_trip (events : List MacroEvent) (h : ∀ ev ∈ events, eventWF ev) :
    load_macro_doc (save_macro_doc events) = Except.ok events := by
  simp [load_macro_doc, save_macro_doc, lookupField, load_of_save_list events h 0]

/-- Witness for C4: a click plus a key press/release round-trip intact. -/
theorem c4_round_trip_witness :
    load_macro_doc (save_macro_doc
      [{ type := "mouse_click", delay_before := 1 / 4, x := some 10, y := some 20,
         key := none },
       { type := "key_down", delay_before := 0, x := none, y := none,
         key := some "Key.enter" },
       { type := "key_up", delay_before := 3, x := none, y := none,
         key := some "a" }]) =
    Except.ok
      [{ type := "mouse_click", delay_before := 1 / 4, x := some 10, y := some 20,
         key := none },
       { type := "key_down", delay_before := 0, x := none, y := none,
         key := some "Key.enter" },
       { type := "key_up", delay_before := 3, x := none, y := none,
         key := some "a" }] := by
  apply c4_round_trip
  intro ev hev
  simp only [List.mem_cons, List.not_mem_nil, or_false] at hev
  rcases hev with h | h | h <;> subst h
  · exact ⟨by norm_num, Or.inl ⟨rfl, ⟨10, rfl⟩, ⟨20, rfl⟩, rfl⟩⟩
  · exact ⟨le_refl 0, Or.inr ⟨Or.inl rfl, rfl, rfl, "Key.enter", rfl,
      Or.inr ⟨"enter", by decide, rfl⟩⟩⟩
  · exact ⟨by norm_num, Or.inr ⟨Or.inr rfl, rfl, rfl, "a", rfl, Or.inl rfl⟩⟩

/-! ### Parameter sanitation (C5) -/

/-- C5: a non-numeric or non-positive speed is replaced by `1.0`, a
non-numeric or non-positive loop count by `1`, and the playback run depends
on the two entry strings only through these values sanitized once before
the loop starts. -/
theorem c5_param_sanitation :
    (∀ s, pyFloat s = none → sanitizeSpeed s = 1) ∧
    (∀ s q, pyFloat s = some q → q ≤ 0 → sanitizeSpeed s = 1) ∧
    (∀ s q, pyFloat s = some q → 0 < q → sanitizeSpeed s = q) ∧
    (∀ s, pyInt s = none → sanitizeLoops s = 1) ∧
    (∀ s n, pyInt s = some n → n ≤ 0 → sanitizeLoops s = 1) ∧
    (∀ s n, pyInt s = some n → 0 < n → (sanitizeLoops s : Int) = n) ∧
    (∀ (f : Nat → Bool) (sStr lStr : String) (events : List MacroEvent),
      events ≠ [] →
      play_macro_thread f sStr lStr events =
        playLoops f (sanitizeSpeed sStr) events (sanitizeLoops lStr) 0) := by
  refine ⟨fun s h => by simp [sanitizeSpeed, h],
    fun s q h hq => by simp [sanitizeSpeed, h, hq],
    fun s q h hq => by simp [sanitizeSpeed, h, not_le.mpr hq],
    fun s h => by simp [sanitizeLoops, h],
    fun s n h hn => by simp [sanitizeLoops, h, hn],
    fun s n h hn => ?_, fun f sStr lStr events h => ?_⟩
  · simp [sanitizeLoops, h, not_le.mpr hn, Int.toNat_of_nonneg (le_of_lt hn)]
  · cases events with
    | nil => exact absurd rfl h
    | cons e rest => simp [play_macro_thread]

/-- Witness for C5 on concrete entry strings. -/
theorem c5_param_sanitation_witness :
    sanitizeSpeed "abc" = 1 ∧ sanitizeSpeed "0" = 1 ∧
    sanitizeSpeed "3" = 3 ∧ sanitizeLoops "-3" = 1 ∧
    (sanitizeLoops "4" : Int) = 4 :=
  ⟨c5_param_sanitation.1 "abc" (by decide),
   c5_param_sanitation.2.1 "0" 0 (by decide) (le_refl 0),
   c5_param_sanitation.2.2.1 "3" 3 (by decide) (by norm_num),
   c5_param_sanitation.2.2.2.2.1 "-3" (-3) (by decide) (by norm_num),
   c5_param_sanitation.2.2.2.2.2.1 "4" 4 (by decide) (by norm_num)⟩

/-! ### State gating of editing operations (C6) -/

/-- C6: while recording or playing, `clear`, `delete`, `update-delay` and
`add-delay` are all rejected with the busy signal and leave the state
untouched; conversely any outcome other than busy can only arise in the
idle state. -/
theorem c6_state_gating (s : AppState) (sel : List Nat) (dstr astr : String) :
    ((s.is_recording = true ∨ s.is_playing = true) →
      clear_events s = (s, EditOutcome.busy) ∧
      delete_selected s sel = (s, EditOutcome.busy) ∧
      update_selected_delay s sel dstr = (s, EditOutcome.busy) ∧
      add_delay_to_selected s sel astr = (s, EditOutcome.busy)) ∧
    ((clear_events s).2 ≠ EditOutcome.busy →
      s.is_recording = false ∧ s.is_playing = false) ∧
    ((delete_selected s sel).2 ≠ EditOutcome.busy →
      s.is_recording = false ∧ s.is_playing = false) ∧
    ((update_selected_delay s sel dstr).2 ≠ EditOutcome.busy →
      s.is_recording = false ∧ s.is_playing = false) ∧
    ((add_delay_to_selected s sel astr).2 ≠ EditOutcome.busy →
      s.is_recording = false ∧ s.is_playing = false) := by
  by_cases h : s.is_recording = true ∨ s.is_playing = true
  · refine ⟨fun _ => ?_, ?_, ?_, ?_, ?_⟩ <;>
      simp [clear_events, delete_selected, update_selected_delay,
        add_delay_to_selected, h]
  · have h1 : s.is_recording = false := by
      cases hr : s.is_recording with
      | false => rfl
      | true => exact absurd (Or.inl hr) h
    have h2 : s.is_playing = false := by
      cases hp : s.is_playing with
      | false => rfl
      | true => exact absurd (Or.inr hp) h
    exact ⟨fun hc => absurd hc h, fun _ => ⟨h1, h2⟩, fun _ => ⟨h1, h2⟩,
      fun _ => ⟨h1, h2⟩, fun _ => ⟨h1, h2⟩⟩

/-- Witness for C6: a recording state rejects `clear` with busy and no
mutation. -/
theorem c6_state_gating_witness :
    clear_events { is_recording := true, is_playing := false,
                   last_event_time := none, events := [] } =
      ({ is_recording := true, is_playing := false, last_event_time := none,
         events := [] }, EditOutcome.busy) :=
  ((c6_state_gating _ [] "" "").1 (Or.inl rfl)).1

/-! ### Load semantics (C7, C8) -/

lemma lookupField_cons_ne {k key : String} (v : JVal) (fs : List (String × JVal))
    (h : k ≠ key) : lookupField ((k, v) :: fs) key = lookupField fs key := by
  simp [lookupField, h]

lemma parseDelay_congr {fs1 fs2 : List (String × JVal)}
    (h : lookupField fs1 "delay_before" = lookupField fs2 "delay_before") :
    parseDelay fs1 = parseDelay fs2 := by
  unfold parseDelay
  rw [h]

lemma parseMouse_congr {fs1 fs2 : List (String × JVal)}
    (hx : lookupField fs1 "x" = lookupField fs2 "x")
    (hy : lookupField fs1 "y" = lookupField fs2 "y") :
    parseMouse fs1 = parseMouse fs2 := by
  funext delay
  unfold parseMouse
  rw [hx, hy]

lemma parseMouse_ok_delay {fs : List (String × JVal)} {delay : ℚ} {ev : MacroEvent}
    (h : parseMouse fs delay = .ok (some ev)) : ev.delay_before = delay := by
  unfold parseMouse at h
  repeat' split at h
  all_goals simp_all
  exact h.symm ▸ rfl

lemma parseKey_ok_delay {fs : List (String × JVal)} {t : String} {delay : ℚ}
    {ev : MacroEvent} (h : parseKey fs t delay = .ok (some ev)) :
    ev.delay_before = delay := by
  unfold parseKey at h
  repeat' split at h
  all_goals simp_all
  exact h.symm ▸ rfl

lemma parseEvent_ok_obj {item : JVal} {o : Option MacroEvent}
    (h : parseEvent item = .ok o) : ∃ fs, item = JVal.jobj fs := by
  cases item with
  | jobj fs => exact ⟨fs, rfl⟩
  | jnull => simp [parseEvent] at h
  | jbool b => simp [parseEvent] at h
  | jint n => simp [parseEvent] at h
  | jfloat q => simp [parseEvent] at h
  | jstr s => simp [parseEvent] at h
  | jarr l => simp [parseEvent] at h

lemma parseTyped_ok_delay {fs : List (String × JVal)} {tv : JVal} {delay : ℚ}
    {ev : MacroEvent} (h : parseTyped fs tv delay = .ok (some ev)) :
    ev.delay_before = delay := by
  cases tv with
  | jstr t =>
    have h' : (if t = "mouse_click" then parseMouse fs delay
        else if t = "key_down" ∨ t = "key_up" then parseKey fs t delay
        else Except.ok none) = Except.ok (some ev) := h
    by_cases h1 : t = "mouse_click"
    · rw [if_pos h1] at h'
      exact parseMouse_ok_delay h'
    · rw [if_neg h1] at h'
      by_cases h2 : t = "key_down" ∨ t = "key_up"
      · rw [if_pos h2] at h'
        exact parseKey_ok_delay h'
      · rw [if_neg h2] at h'
        simp at h'
  | jnull => simp [parseTyped] at h
  | jbool b => simp [parseTyped] at h
  | jint n => simp [parseTyped] at h
  | jfloat q => simp [parseTyped] at h
  | jarr l => simp [parseTyped] at h
  | jobj o => simp [parseTyped] at h

lemma parseEvent_jobj_err {fs : List (String × JVal)} {e : String}
    (hpd : parseDelay fs = .error e) : parseEvent (JVal.jobj fs) = .error e := by
  simp only [parseEvent]
  rw [hpd]

lemma parseEvent_jobj_ok {fs : List (String × JVal)} {d0 : ℚ}
    (hpd : parseDelay fs = .ok d0) :
    parseEvent (JVal.jobj fs) =
      parseTyped fs ((lookupField fs "type").getD (.jstr "mouse_click"))
        (if d0 < 0 then (0 : ℚ) else d0) := by
  simp only [parseEvent]
  rw [hpd]

/-- A successfully parsed item is a JSON object whose converted delay,
clamped at zero, is the `delay_before` of the event. -/
lemma parseEvent_ok_shape {item : JVal} {ev : MacroEvent}
    (h : parseEvent item = .ok (some ev)) :
    ∃ fs d0, item = JVal.jobj fs ∧ parseDelay fs = .ok d0 ∧
      ev.delay_before = (if d0 < 0 then (0 : ℚ) else d0) := by
  obtain ⟨fs, rfl⟩ := parseEvent_ok_obj h
  cases hpd : parseDelay fs with
  | error e => rw [parseEvent_jobj_err hpd] at h; exact absurd h (by simp)
  | ok d0 =>
    rw [parseEvent_jobj_ok hpd] at h
    exact ⟨fs, d0, rfl, hpd, parseTyped_ok_delay h⟩

lemma loadEvents_all_ok :
    ∀ (items : List JVal) (idx : Nat),
      (∀ item ∈ items, (parseEvent item).isOk = true) →
      loadEvents items idx = .ok (items.filterMap parsedEvent) := by
  intro items
  induction items with
  | nil => intro idx _; rfl
  | cons item rest ih =>
    intro idx h
    have hi := h item (by simp)
    have hrest : ∀ it ∈ rest, (parseEvent it).isOk = true :=
      fun it hit => h it (by simp [hit])
    cases hp : parseEvent item with
    | error e => rw [hp] at hi; simp [Except.isOk, Except.toBool] at hi
    | ok o =>
      cases o with
      | none => simp [loadEvents, hp, parsedEvent, ih (idx + 1) hrest]
      | some ev =>
        simp [loadEvents, hp, parsedEvent, ih (idx + 1) hrest, Except.map]

lemma loadEvents_err :
    ∀ (items : List JVal) (idx : Nat) (item : JVal), item ∈ items →
      (parseEvent item).isOk = false → (loadEvents items idx).isOk = false := by
  intro items
  induction items with
  | nil => intro idx item h; simp at h
  | cons a rest ih =>
    intro idx item hmem hbad
    rcases List.mem_cons.mp hmem with rfl | hmem'
    · cases hp : parseEvent item with
      | error e => simp [loadEvents, hp, Except.isOk, Except.toBool]
      | ok o => rw [hp] at hbad; simp [Except.isOk, Except.toBool] at hbad
    · cases hp : parseEvent a with
      | error e => simp [loadEvents, hp, Except.isOk, Except.toBool]
      | ok o =>
        cases o with
        | none => simpa [loadEvents, hp] using ih (idx + 1) item hmem' hbad
        | some ev =>
          have hr := ih (idx + 1) item hmem' hbad
          cases hl : loadEvents rest (idx + 1) with
          | error e =>
            simp [loadEvents, hp, hl, Except.map, Except.isOk, Except.toBool]
          | ok l => rw [hl] at hr; simp [Except.isOk, Except.toBool] at hr

/-- C7 (amended): when `events` is an array, a missing item `type`
defaults to `mouse_click`; an item with an unknown `type` whose
`delay_before` is absent or convertible to a number is skipped silently;
when every item parses, the items that parse to events are loaded in
order; and a negative stored `delay_before` is clamped to `0`.
(The amendment: the source converts `delay_before` before looking at
`type`, so an unknown-type item with an unconvertible `delay_before`
aborts the load instead of being skipped — see the counterexample.) -/
theorem c7_load_semantics :
    (∀ fs, lookupField fs "type" = none →
      parseEvent (JVal.jobj fs) =
        parseEvent (JVal.jobj (("type", JVal.jstr "mouse_click") :: fs))) ∧
    (∀ fs t, lookupField fs "type" = some (JVal.jstr t) →
      t ≠ "mouse_click" → t ≠ "key_down" → t ≠ "key_up" →
      (parseDelay fs).isOk = true →
      parseEvent (JVal.jobj fs) = Except.ok none) ∧
    (∀ fs items, lookupField fs "events" = some (JVal.jarr items) →
      (∀ item ∈ items, (parseEvent item).isOk = true) →
      load_macro_doc (JVal.jobj fs) = Except.ok (items.filterMap parsedEvent)) ∧
    (∀ fs q ev, lookupField fs "delay_before" = some (JVal.jfloat q) → q < 0 →
      parseEvent (JVal.jobj fs) = Except.ok (some ev) → ev.delay_before = 0) := by
  refine ⟨fun fs h => ?_, fun fs t h ht1 ht2 ht3 hd => ?_, fun fs items h hall => ?_,
    fun fs q ev h hq hp => ?_⟩
  · have e1 : lookupField (("type", JVal.jstr "mouse_click") :: fs) "type" =
        some (JVal.jstr "mouse_click") := by simp [lookupField]
    have e2 : parseDelay (("type", JVal.jstr "mouse_click") :: fs) = parseDelay fs :=
      parseDelay_congr (lookupField_cons_ne _ _ (by decide))
    have e3 : parseMouse (("type", JVal.jstr "mouse_click") :: fs) = parseMouse fs :=
      parseMouse_congr (lookupField_cons_ne _ _ (by decide))
        (lookupField_cons_ne _ _ (by decide))
    simp [parseEvent, parseTyped, h, e1, e2, e3]
  · cases hpd : parseDelay fs with
    | error e => rw [hpd] at hd; simp [Except.isOk, Except.toBool] at hd
    | ok d0 => simp [parseEvent, parseTyped, h, hpd, ht1, ht2, ht3]
  · simp [load_macro_doc, h, loadEvents_all_ok items 0 hall]
  · obtain ⟨fs', d0, hfs, hpd, hdelay⟩ := parseEvent_ok_shape hp
    have hfs' : fs' = fs := by injection hfs.symm
    subst hfs'
    have : parseDelay fs' = .ok q := by simp [parseDelay, h, pyFloatVal]
    rw [this] at hpd
    injection hpd with hd0
    rw [hdelay, ← hd0, if_pos hq]

/-- Witness for C7: an unknown-type item with no `delay_before` field is
skipped. -/
theorem c7_load_semantics_witness :
    parseEvent (JVal.jobj [("type", JVal.jstr "bogus")]) = Except.ok none :=
  c7_load_semantics.2.1 _ "bogus" rfl (by decide) (by decide) (by decide) rfl

/-- The document refuting C7 as stated: the first item has an unknown
`type` but a `delay_before` that `float()` rejects, the second is a valid
click. -/
def c7_bad_doc : JVal :=
  JVal.jobj [("events", JVal.jarr
    [JVal.jobj [("type", JVal.jstr "bogus"), ("delay_before", JVal.jnull)],
     JVal.jobj [("type", JVal.jstr "mouse_click"), ("x", JVal.jint 1),
                ("y", JVal.jint 2)]])]

/-- Counterexample to C7 as stated: the claim predicts the unknown-type
item is skipped and the valid click loaded, but the load aborts on the
unconvertible `delay_before` of the unknown-type item. -/
theorem c7_counterexample :
    load_macro_doc c7_bad_doc =
      Except.error
        "Invalid event at index 0: float() argument must be a string or a real number" ∧
    load_macro_doc c7_bad_doc ≠
      Except.ok [{ type := "mouse_click", delay_before := 0, x := some 1,
                   y := some 2, key := none }] := by
  have he : load_macro_doc c7_bad_doc =
      Except.error
        "Invalid event at index 0: float() argument must be a string or a real number" :=
    rfl
  exact ⟨he, fun h => by rw [he] at h; exact Except.noConfusion h⟩

/-- C8: a failed load leaves the previous timeline untouched, and the
load does fail when `events` is missing or not an array, when any item of
the array fails to parse, and in particular when a `mouse_click` item
lacks an `x` or its `x` does not convert to an integer, or a key item
lacks a `key`. -/
theorem c8_load_failure :
    (∀ (s : AppState) (data : JVal), (load_macro_doc data).isOk = false →
      loadIntoApp s data = s) ∧
    (∀ fs, lookupField fs "events" = none →
      (load_macro_doc (JVal.jobj fs)).isOk = false) ∧
    (∀ fs v, lookupField fs "events" = some v → (∀ items, v ≠ JVal.jarr items) →
      (load_macro_doc (JVal.jobj fs)).isOk = false) ∧
    (∀ fs items item, lookupField fs "events" = some (JVal.jarr items) →
      item ∈ items → (parseEvent item).isOk = false →
      (load_macro_doc (JVal.jobj fs)).isOk = false) ∧
    (∀ fs, lookupField fs "type" = some (JVal.jstr "mouse_click") →
      lookupField fs "x" = none → (parseEvent (JVal.jobj fs)).isOk = false) ∧
    (∀ fs v, lookupField fs "type" = some (JVal.jstr "mouse_click") →
      lookupField fs "x" = some v → (pyIntVal v).isOk = false →
      (parseEvent (JVal.jobj fs)).isOk = false) ∧
    (∀ fs t, lookupField fs "type" = some (JVal.jstr t) →
      t = "key_down" ∨ t = "key_up" → lookupField fs "key" = none →
      (parseEvent (JVal.jobj fs)).isOk = false) := by
  refine ⟨fun s data h => ?_, fun fs h => ?_, fun fs v h hne => ?_,
    fun fs items item h hmem hbad => ?_, fun fs h hx => ?_,
    fun fs v h hx hbad => ?_, fun fs t h ht hk => ?_⟩
  · unfold loadIntoApp
    by_cases hb : s.is_recording = true ∨ s.is_playing = true
    · simp [hb]
    · cases hl : load_macro_doc data with
      | error e => simp [hb, hl]
      | ok l => rw [hl] at h; simp [Except.isOk, Except.toBool] at h
  · simp [load_macro_doc, h, Except.isOk, Except.toBool]
  · cases v with
    | jarr items => exact absurd rfl (hne items)
    | _ => simp_all [load_macro_doc, Except.isOk, Except.toBool]
  · rw [show load_macro_doc (JVal.jobj fs) = loadEvents items 0 from by
      simp [load_macro_doc, h]]
    exact loadEvents_err items 0 item hmem hbad
  · cases hpd : parseDelay fs with
    | error e => simp [parseEvent, hpd, Except.isOk, Except.toBool]
    | ok d0 =>
      simp [parseEvent, parseTyped, h, hpd, parseMouse, hx, Except.isOk,
        Except.toBool]
  · cases hpd : parseDelay fs with
    | error e => simp [parseEvent, hpd, Except.isOk, Except.toBool]
    | ok d0 =>
      cases hpi : pyIntVal v with
      | error e =>
        simp [parseEvent, parseTyped, h, hpd, parseMouse, hx, hpi, Except.isOk,
          Except.toBool]
      | ok n => rw [hpi] at hbad; simp [Except.isOk, Except.toBool] at hbad
  · cases hpd : parseDelay fs with
    | error e => simp [parseEvent, hpd, Except.isOk, Except.toBool]
    | ok d0 =>
      rcases ht with rfl | rfl <;>
        simp [parseEvent, parseTyped, h, hpd, parseKey, hk, Except.isOk,
          Except.toBool]

/-- Witness for C8: a document without an `events` array fails to load and
leaves a one-event timeline unchanged. -/
theorem c8_load_failure_witness :
    (load_macro_doc (JVal.jobj [("version", JVal.jint 3)])).isOk = false ∧
    loadIntoApp
      { is_recording := false, is_playing := false, last_event_time := none,
        events := [{ type := "mouse_click", delay_before := 1, x := some 3,
                     y := some 4, key := none }] }
      (JVal.jobj [("version", JVal.jint 3)]) =
    { is_recording := false, is_playing := false, last_event_time := none,
      events := [{ type := "mouse_click", delay_before := 1, x := some 3,
                   y := some 4, key := none }] } :=
  ⟨c8_load_failure.2.1 _ rfl, c8_load_failure.1 _ _ (c8_load_failure.2.1 _ rfl)⟩

/-! ### The delay invariant (C9) -/

/-- The timeline invariant: every event waits a non-negative time. -/
def EventsNonneg (l : List MacroEvent) : Prop := ∀ ev ∈ l, 0 ≤ ev.delay_before

lemma modifyAt_mem :
    ∀ (l : List MacroEvent) (i : Nat) (f : MacroEvent → MacroEvent)
      (a : MacroEvent), a ∈ modifyAt l i f → a ∈ l ∨ ∃ b ∈ l, a = f b := by
  intro l
  induction l with
  | nil => intro i f a h; simp [modifyAt] at h
  | cons x t ih =>
    intro i f a h
    cases i with
    | zero =>
      simp only [modifyAt, List.mem_cons] at h
      rcases h with rfl | h
      · exact Or.inr ⟨x, by simp, rfl⟩
      · exact Or.inl (by simp [h])
    | succ n =>
      simp only [modifyAt, List.mem_cons] at h
      rcases h with rfl | h
      · exact Or.inl (by simp)
      · rcases ih n f a h with h' | ⟨b, hb, rfl⟩
        · exact Or.inl (by simp [h'])
        · exact Or.inr ⟨b, by simp [hb], rfl⟩

lemma modifyAt_nonneg {l : List MacroEvent} {i : Nat} {f : MacroEvent → MacroEvent}
    (hl : EventsNonneg l) (hf : ∀ b ∈ l, 0 ≤ (f b).delay_before) :
    EventsNonneg (modifyAt l i f) := by
  intro ev hev
  rcases modifyAt_mem l i f ev hev with h | ⟨b, hb, rfl⟩
  · exact hl ev h
  · exact hf b hb

lemma addClamp_nonneg (delta : ℚ) (ev : MacroEvent) :
    0 ≤ (addClamp delta ev).delay_before := by
  unfold addClamp
  by_cases hb : ev.delay_before + delta < 0
  · simp [hb]
  · simp [hb]
    exact not_lt.mp hb

lemma addDelayStep_nonneg (delta : ℚ) (evs : List MacroEvent) (idx : Nat)
    (h : EventsNonneg evs) : EventsNonneg (addDelayStep delta evs idx) := by
  unfold addDelayStep
  split
  · exact modifyAt_nonneg h (fun b _ => addClamp_nonneg delta b)
  · exact h

lemma addFold_nonneg :
    ∀ (sel : List Nat) (evs : List MacroEvent) (delta : ℚ), EventsNonneg evs →
      EventsNonneg (sel.foldl (addDelayStep delta) evs) := by
  intro sel
  induction sel with
  | nil => intro evs delta h; exact h
  | cons i rest ih =>
    intro evs delta h
    simp only [List.foldl_cons]
    exact ih _ delta (addDelayStep_nonneg delta evs i h)

lemma parseEvent_ok_nonneg {item : JVal} {ev : MacroEvent}
    (h : parseEvent item = .ok (some ev)) : 0 ≤ ev.delay_before := by
  obtain ⟨fs, d0, _, _, hdel⟩ := parseEvent_ok_shape h
  rw [hdel]
  by_cases hd : d0 < 0
  · rw [if_pos hd]
  · rw [if_neg hd]
    exact not_lt.mp hd

lemma loadEvents_nonneg :
    ∀ (items : List JVal) (idx : Nat) (evs : List MacroEvent),
      loadEvents items idx = .ok evs → EventsNonneg evs := by
  intro items
  induction items with
  | nil =>
    intro idx evs h
    injection h with h
    subst h
    intro ev hev
    simp at hev
  | cons item rest ih =>
    intro idx evs h
    simp only [loadEvents] at h
    cases hp : parseEvent item with
    | error e => rw [hp] at h; simp at h
    | ok o =>
      rw [hp] at h
      cases o with
      | none => exact ih (idx + 1) evs (by simpa using h)
      | some ev =>
        cases hl : loadEvents rest (idx + 1) with
        | error e => rw [hl] at h; simp [Except.map] at h
        | ok l =>
          rw [hl] at h
          simp only [Except.map] at h
          injection h with h
          subst h
          intro e he
          rcases List.mem_cons.mp he with rfl | he'
          · exact parseEvent_ok_nonneg hp
          · exact ih (idx + 1) l hl e he'

lemma load_macro_doc_nonneg {data : JVal} {evs : List MacroEvent}
    (h : load_macro_doc data = .ok evs) : EventsNonneg evs := by
  cases data with
  | jobj fs =>
    simp only [load_macro_doc] at h
    split at h
    case _ items heq => exact loadEvents_nonneg items 0 evs h
    case _ => simp at h
  | jnull => simp [load_macro_doc] at h
  | jbool b => simp [load_macro_doc] at h
  | jint n => simp [load_macro_doc] at h
  | jfloat q => simp [load_macro_doc] at h
  | jstr s => simp [load_macro_doc] at h
  | jarr l => simp [load_macro_doc] at h

/-- C9: `delay_before ≥ 0` holds for every event and is preserved by every
operation: capture derives delays from successive timestamps (non-negative
when time is monotone), `update_delay` rejects negative input, `add_delay`
clamps negative results to `0`, and load clamps negative stored delays to
`0`. -/
theorem c9_delay_invariant :
    (∀ (s : AppState) (now : ℚ) (px py : Int) (left pressed : Bool),
      (∀ t, s.last_event_time = some t → t ≤ now) → EventsNonneg s.events →
      EventsNonneg (on_mouse_click s now px py left pressed).events) ∧
    (∀ (s : AppState) (now : ℚ) (et : String) (k : PynputKey),
      (∀ t, s.last_event_time = some t → t ≤ now) → EventsNonneg s.events →
      EventsNonneg (record_key_event s now et k).events) ∧
    (∀ (s : AppState) (sel : List Nat) (dstr : String), EventsNonneg s.events →
      EventsNonneg (update_selected_delay s sel dstr).1.events) ∧
    (∀ (s : AppState) (sel : List Nat) (astr : String), EventsNonneg s.events →
      EventsNonneg (add_delay_to_selected s sel astr).1.events) ∧
    (∀ (data : JVal) (evs : List MacroEvent), load_macro_doc data = Except.ok evs →
      EventsNonneg evs) := by
  refine ⟨fun s now px py left pressed hmono hinv => ?_,
    fun s now et k hmono hinv => ?_, fun s sel dstr hinv => ?_,
    fun s sel astr hinv => ?_, fun data evs h => load_macro_doc_nonneg h⟩
  · unfold on_mouse_click
    split
    · exact hinv
    · split
      · exact hinv
      · cases hle : s.last_event_time with
        | none =>
          simp only [_get_delay, hle]
          intro ev hev
          rcases List.mem_append.mp hev with h | h
          · exact hinv ev h
          · simp at h
            subst h
            exact le_refl 0
        | some t =>
          simp only [_get_delay, hle]
          intro ev hev
          rcases List.mem_append.mp hev with h | h
          · exact hinv ev h
          · simp at h
            subst h
            simpa using sub_nonneg.mpr (hmono t hle)
  · unfold record_key_event
    split
    · exact hinv
    · cases hle : s.last_event_time with
      | none =>
        simp only [_get_delay, hle]
        intro ev hev
        rcases List.mem_append.mp hev with h | h
        · exact hinv ev h
        · simp at h
          subst h
          exact le_refl 0
      | some t =>
        simp only [_get_delay, hle]
        intro ev hev
        rcases List.mem_append.mp hev with h | h
        · exact hinv ev h
        · simp at h
          subst h
          simpa using sub_nonneg.mpr (hmono t hle)
  · unfold update_selected_delay
    repeat' split
    all_goals try exact hinv
    exact modifyAt_nonneg hinv (fun b _ => not_lt.mp (by assumption))
  · unfold add_delay_to_selected
    repeat' split
    all_goals try exact hinv
    exact addFold_nonneg sel s.events _ hinv

/-- Witness for C9: loading a stored negative delay yields a timeline with
a clamped, non-negative delay. -/
theorem c9_delay_invariant_witness :
    EventsNonneg [{ type := "mouse_click", delay_before := 0, x := some 1,
                    y := some 2, key := none }] :=
  c9_delay_invariant.2.2.2.2
    (JVal.jobj [("events", JVal.jarr
      [JVal.jobj [("type", JVal.jstr "mouse_click"),
                  ("delay_before", JVal.jfloat (-1)),
                  ("x", JVal.jint 1), ("y", JVal.jint 2)]])])
    _
    (by simp +decide [load_macro_doc, lookupField, loadEvents, parseEvent, parseDelay,
      parseMouse, parseTyped, pyFloatVal, pyIntVal, Except.map])

/-! ### Frame conditions of the delay edits (C10) -/

lemma modifyAt_length :
    ∀ (l : List MacroEvent) (i : Nat) (f : MacroEvent → MacroEvent),
      (modifyAt l i f).length = l.length := by
  intro l
  induction l with
  | nil => intro i f; rfl
  | cons a t ih =>
    intro i f
    cases i with
    | zero => rfl
    | succ n => simp [modifyAt, ih]

lemma modifyAt_map {α : Type} (g : MacroEvent → α) (f : MacroEvent → MacroEvent)
    (hf : ∀ a, g (f a) = g a) :
    ∀ (l : List MacroEvent) (i : Nat), (modifyAt l i f).map g = l.map g := by
  intro l
  induction l with
  | nil => intro i; rfl
  | cons a t ih =>
    intro i
    cases i with
    | zero => simp [modifyAt, hf]
    | succ n => simp [modifyAt, ih]

lemma modifyAt_getElem_ne (f : MacroEvent → MacroEvent) :
    ∀ (l : List MacroEvent) (i j : Nat), j ≠ i →
      (modifyAt l i f)[j]? = l[j]? := by
  intro l
  induction l with
  | nil => intro i j _; rfl
  | cons a t ih =>
    intro i j h
    cases i with
    | zero =>
      cases j with
      | zero => exact absurd rfl h
      | succ m => simp [modifyAt]
    | succ n =>
      cases j with
      | zero => simp [modifyAt]
      | succ m => simp [modifyAt, ih n m (fun hh => h (by rw [hh]))]

lemma addDelayStep_length (delta : ℚ) (evs : List MacroEvent) (idx : Nat) :
    (addDelayStep delta evs idx).length = evs.length := by
  unfold addDelayStep
  split
  · exact modifyAt_length _ _ _
  · rfl

lemma addDelayStep_map {α : Type} (g : MacroEvent → α) (delta : ℚ)
    (hf : ∀ a, g (addClamp delta a) = g a) (evs : List MacroEvent) (idx : Nat) :
    (addDelayStep delta evs idx).map g = evs.map g := by
  unfold addDelayStep
  split
  · exact modifyAt_map g _ hf evs idx
  · rfl

lemma addDelayStep_getElem_ne (delta : ℚ) (evs : List MacroEvent) (idx i : Nat)
    (h : i ≠ idx) : (addDelayStep delta evs idx)[i]? = evs[i]? := by
  unfold addDelayStep
  split
  · exact modifyAt_getElem_ne _ evs idx i h
  · rfl

lemma addFold_length (delta : ℚ) :
    ∀ (sel : List Nat) (evs : List MacroEvent),
      (sel.foldl (addDelayStep delta) evs).length = evs.length := by
  intro sel
  induction sel with
  | nil => intro evs; rfl
  | cons j rest ih =>
    intro evs
    simp only [List.foldl_cons]
    rw [ih, addDelayStep_length]

lemma addFold_map {α : Type} (g : MacroEvent → α) (delta : ℚ)
    (hf : ∀ a, g (addClamp delta a) = g a) :
    ∀ (sel : List Nat) (evs : List MacroEvent),
      (sel.foldl (addDelayStep delta) evs).map g = evs.map g := by
  intro sel
  induction sel with
  | nil => intro evs; rfl
  | cons j rest ih =>
    intro evs
    simp only [List.foldl_cons]
    rw [ih, addDelayStep_map g delta hf]

lemma addFold_getElem_ne (delta : ℚ) :
    ∀ (sel : List Nat) (evs : List MacroEvent) (i : Nat), i ∉ sel →
      (sel.foldl (addDelayStep delta) evs)[i]? = evs[i]? := by
  intro sel
  induction sel with
  | nil => intro evs i _; rfl
  | cons j rest ih =>
    intro evs i hi
    simp only [List.mem_cons, not_or] at hi
    simp only [List.foldl_cons]
    rw [ih _ i hi.2, addDelayStep_getElem_ne delta evs j i hi.1]

/-- Operation `update_selected_delay` either leaves the state alone or replaces the
delay of one selected event. -/
lemma update_events_cases (s : AppState) (sel : List Nat) (dstr : String) :
    (update_selected_delay s sel dstr).1 = s ∨
    (sel ≠ [] ∧ ∃ d, (update_selected_delay s sel dstr).1.events =
        setDelayAt s.events (sel.headD 0) d) := by
  unfold update_selected_delay
  repeat' split
  all_goals try exact Or.inl rfl
  exact Or.inr ⟨by assumption, _, rfl⟩

/-- Operation `add_delay_to_selected` either leaves the state alone or folds the
clamped addition over the selection. -/
lemma add_events_cases (s : AppState) (sel : List Nat) (astr : String) :
    (add_delay_to_selected s sel astr).1 = s ∨
    ∃ delta, (add_delay_to_selected s sel astr).1.events =
      sel.foldl (addDelayStep delta) s.events := by
  unfold add_delay_to_selected
  repeat' split
  all_goals try exact Or.inl rfl
  exact Or.inr ⟨_, rfl⟩

lemma update_frame (s : AppState) (sel : List Nat) (dstr : String) :
    (update_selected_delay s sel dstr).1.events.map MacroEvent.type =
      s.events.map MacroEvent.type ∧
    (update_selected_delay s sel dstr).1.events.map MacroEvent.x =
      s.events.map MacroEvent.x ∧
    (update_selected_delay s sel dstr).1.events.map MacroEvent.y =
      s.events.map MacroEvent.y ∧
    (update_selected_delay s sel dstr).1.events.map MacroEvent.key =
      s.events.map MacroEvent.key ∧
    (update_selected_delay s sel dstr).1.events.length = s.events.length ∧
    (∀ i, i ∉ sel →
      (update_selected_delay s sel dstr).1.events[i]? = s.events[i]?) := by
  rcases update_events_cases s sel dstr with hu | ⟨hsel, d, hu⟩
  · rw [hu]
    exact ⟨rfl, rfl, rfl, rfl, rfl, fun i _ => rfl⟩
  · rw [hu]
    unfold setDelayAt
    refine ⟨modifyAt_map MacroEvent.type
        (fun ev => { ev with delay_before := d }) (fun a => rfl) s.events _,
      modifyAt_map MacroEvent.x
        (fun ev => { ev with delay_before := d }) (fun a => rfl) s.events _,
      modifyAt_map MacroEvent.y
        (fun ev => { ev with delay_before := d }) (fun a => rfl) s.events _,
      modifyAt_map MacroEvent.key
        (fun ev => { ev with delay_before := d }) (fun a => rfl) s.events _,
      modifyAt_length s.events _ _, fun i hi => ?_⟩
    apply modifyAt_getElem_ne
    cases sel with
    | nil => exact absurd rfl hsel
    | cons j rest =>
      simp only [List.headD_cons]
      simp only [List.mem_cons, not_or] at hi
      exact hi.1

lemma add_frame (s : AppState) (sel : List Nat) (astr : String) :
    (add_delay_to_selected s sel astr).1.events.map MacroEvent.type =
      s.events.map MacroEvent.type ∧
    (add_delay_to_selected s sel astr).1.events.map MacroEvent.x =
      s.events.map MacroEvent.x ∧
    (add_delay_to_selected s sel astr).1.events.map MacroEvent.y =
      s.events.map MacroEvent.y ∧
    (add_delay_to_selected s sel astr).1.events.map MacroEvent.key =
      s.events.map MacroEvent.key ∧
    (add_delay_to_selected s sel astr).1.events.length = s.events.length ∧
    (∀ i, i ∉ sel →
      (add_delay_to_selected s sel astr).1.events[i]? = s.events[i]?) := by
  rcases add_events_cases s sel astr with ha | ⟨delta, ha⟩
  · rw [ha]
    exact ⟨rfl, rfl, rfl, rfl, rfl, fun i _ => rfl⟩
  · rw [ha]
    exact ⟨addFold_map MacroEvent.type delta (fun a => rfl) sel s.events,
      addFold_map MacroEvent.x delta (fun a => rfl) sel s.events,
      addFold_map MacroEvent.y delta (fun a => rfl) sel s.events,
      addFold_map MacroEvent.key delta (fun a => rfl) sel s.events,
      addFold_length delta sel s.events,
      fun i hi => addFold_getElem_ne delta sel s.events i hi⟩

/-- C10: in the idle state, `update_delay` and `add_delay` change only
the `delay_before` field of selected events: the `type`, `x`, `y` and
`key` of every event, every event at an unselected index, and the length
and order of the timeline are unchanged. -/
theorem c10_frame (s : AppState) (sel : List Nat) (dstr astr : String)
    (_h1 : s.is_recording = false) (_h2 : s.is_playing = false) :
    ((update_selected_delay s sel dstr).1.events.map MacroEvent.type =
        s.events.map MacroEvent.type ∧
      (update_selected_delay s sel dstr).1.events.map MacroEvent.x =
        s.events.map MacroEvent.x ∧
      (update_selected_delay s sel dstr).1.events.map MacroEvent.y =
        s.events.map MacroEvent.y ∧
      (update_selected_delay s sel dstr).1.events.map MacroEvent.key =
        s.events.map MacroEvent.key ∧
      (update_selected_delay s sel dstr).1.events.length = s.events.length ∧
      (∀ i, i ∉ sel →
        (update_selected_delay s sel dstr).1.events[i]? = s.events[i]?)) ∧
    ((add_delay_to_selected s sel astr).1.events.map MacroEvent.type =
        s.events.map MacroEvent.type ∧
      (add_delay_to_selected s sel astr).1.events.map MacroEvent.x =
        s.events.map MacroEvent.x ∧
      (add_delay_to_selected s sel astr).1.events.map MacroEvent.y =
        s.events.map MacroEvent.y ∧
      (add_delay_to_selected s sel astr).1.events.map MacroEvent.key =
        s.events.map MacroEvent.key ∧
      (add_delay_to_selected s sel astr).1.events.length = s.events.length ∧
      (∀ i, i ∉ sel →
        (add_delay_to_selected s sel astr).1.events[i]? = s.events[i]?)) :=
  ⟨update_frame s sel dstr, add_frame s sel astr⟩

/-- Witness for C10: updating the delay of the first of two events keeps
the kinds of both events. -/
theorem c10_frame_witness :
    (update_selected_delay
      { is_recording := false, is_playing := false, last_event_time := none,
        events := [{ type := "mouse_click", delay_before := 1, x := some 0,
                     y := some 0, key := none },
                   { type := "key_down", delay_before := 2, x := none,
                     y := none, key := some "a" }] }
      [0] "5").1.events.map MacroEvent.type =
    [{ type := "mouse_click", delay_before := (1 : ℚ), x := some 0, y := some 0,
       key := none },
     { type := "key_down", delay_before := 2, x := none, y := none,
       key := some "a" }].map MacroEvent.type :=
  (c10_frame _ [0] "5" "1" rfl rfl).1.1
